import Mathlib

/-!
Shallow embedding of the THC_Opponent_Analyser core (thc_edge package):
the retry/backoff loop of `APIClient._make_request_internal` and
`APIClient._make_full_url_request` (api_client.py), the token-bucket rate
limiter `TokenBucket.acquire` (rate_limit.py), the two-tier response cache
`Cache` (storage.py), the in-flight request de-duplication of
`APIClient._make_request`, the request-key builder `APIClient._request_key`,
and the batch fetch `APIClient.fetch_multiple_players`.
Machine floats (`time.time()` values, token counts) are modelled as
rationals; JSON payloads are an abstract type parameter.
-/

namespace ThcEdge

-- Configuration constants from config.py (class Config).
namespace Config

def HTTP_RETRIES : Nat := 3

def CACHE_TTL_SECONDS : ℚ := 3600

def RATE_LIMIT_CALLS : ℚ := 80

def RATE_LIMIT_PERIOD : ℚ := 60

end Config

/-- Python `x or default` applied to an `Optional[int]` argument: both `None`
and `0` are falsy, so they select the default.  This is the semantics of
`retries = retries or Config.HTTP_RETRIES` (api_client.py lines 99 and 183)
and `ttl = ttl_seconds or Config.CACHE_TTL_SECONDS` (storage.py line 146). -/
def orDefaultNat (v : Option Nat) (d : Nat) : Nat :=
  match v with
  | none => d
  | some n => if n = 0 then d else n

/-- Python `x or default` on an optional rational (`None` and `0` are falsy). -/
def orDefaultRat (v : Option ℚ) (d : ℚ) : ℚ :=
  match v with
  | none => d
  | some x => if x = 0 then d else x

/-- Effective retry bound computed at the top of `_make_request_internal` and
`_make_full_url_request`: `retries = retries or Config.HTTP_RETRIES`. -/
def effectiveRetries (retries : Option Nat) : Nat :=
  orDefaultNat retries Config.HTTP_RETRIES

/-- Outcome of one network attempt as observed by the `try` block of the
retry loop: either the transport layer raises `aiohttp.ClientError`, or an
HTTP response with the given status code arrives (body parsing succeeds). -/
inductive NetOutcome
  | transportError
  | status (code : Nat)
deriving DecidableEq

/-- Terminal result of the retry loop of `_make_request_internal` /
`_make_full_url_request`:
`success a` is a normal return of the body parsed at attempt index `a`;
`exhaustedRetries` is `RuntimeError("Failed after {retries + 1} attempts")`
raised in the `except aiohttp.ClientError` handler;
`maxRetriesExceeded` is `RuntimeError("Max retries ... exceeded")` raised
after the `while attempt <= retries` guard fails. -/
inductive ReqResult
  | success (attempt : Nat)
  | exhaustedRetries
  | maxRetriesExceeded
deriving DecidableEq

/-- The `while attempt <= retries` loop of `_make_request_internal`
(api_client.py lines 110-170; `_make_full_url_request` lines 189-244 is the
same loop).  `server a` is the outcome of the network attempt made when the
attempt counter equals `a`; the second component of the result counts the
network attempts actually issued.  A key point of the control flow: for any
status `>= 400` that is not handled by the 429 branch or the `>= 500` branch
with attempts remaining, `resp.raise_for_status()` raises
`aiohttp.ClientResponseError`, which is a subclass of `aiohttp.ClientError`
and is therefore caught by the `except aiohttp.ClientError` handler and
retried while `attempt < retries`.  `fuel` bounds the recursion; callers pass
`retries + 2`, which is more than the loop can ever iterate, so the fuel-out
branch is unreachable and coincides with the loop-guard exit anyway. -/
def requestLoop (retries : Nat) (server : Nat → NetOutcome) :
    Nat → Nat → Nat → ReqResult × Nat
  | 0, _, calls => (ReqResult.maxRetriesExceeded, calls)
  | fuel + 1, attempt, calls =>
    if attempt ≤ retries then
      match server attempt with
      | NetOutcome.status code =>
        if code = 429 then
          -- sleep Retry-After, attempt += 1, continue (no bound test here)
          requestLoop retries server fuel (attempt + 1) (calls + 1)
        else if 500 ≤ code then
          if attempt < retries then
            requestLoop retries server fuel (attempt + 1) (calls + 1)
          else
            -- falls through to raise_for_status, caught as ClientError,
            -- no attempts remain
            (ReqResult.exhaustedRetries, calls + 1)
        else if 400 ≤ code then
          -- raise_for_status raises ClientResponseError (a ClientError)
          if attempt < retries then
            requestLoop retries server fuel (attempt + 1) (calls + 1)
          else
            (ReqResult.exhaustedRetries, calls + 1)
        else
          (ReqResult.success attempt, calls + 1)
      | NetOutcome.transportError =>
        if attempt < retries then
          requestLoop retries server fuel (attempt + 1) (calls + 1)
        else
          (ReqResult.exhaustedRetries, calls + 1)
    else
      (ReqResult.maxRetriesExceeded, calls)

/-- `APIClient._make_request_internal` specialised to its retry behaviour:
resolves the pythonic default for `retries`, then runs the attempt loop from
`attempt = 0`. -/
def makeRequestInternal (retries : Option Nat) (server : Nat → NetOutcome) :
    ReqResult × Nat :=
  let r := effectiveRetries retries
  requestLoop r server (r + 2) 0 0

/-- `APIClient._make_full_url_request` has a verbatim copy of the same retry
loop (api_client.py lines 183-244), including the `retries or
Config.HTTP_RETRIES` default. -/
def makeFullUrlRequest (retries : Option Nat) (server : Nat → NetOutcome) :
    ReqResult × Nat :=
  let r := effectiveRetries retries
  requestLoop r server (r + 2) 0 0

/-- State of `TokenBucket` (rate_limit.py): capacity, refill rate in tokens
per second, current token count, and the time of the last refill.  Floats
are modelled as rationals. -/
structure Bucket where
  capacity : ℚ
  refill_rate : ℚ
  tokens : ℚ
  last_refill : ℚ
deriving DecidableEq

/-- `TokenBucket.__init__(capacity, refill_rate)`: starts full
(`self.tokens = float(capacity)`) with `last_refill = time.time()`. -/
def mkBucket (capacity refill_rate now : ℚ) : Bucket :=
  { capacity := capacity, refill_rate := refill_rate,
    tokens := capacity, last_refill := now }

/-- One refill-and-debit step of `TokenBucket.acquire` (rate_limit.py lines
47-59), the body of the critical section under `self._lock`: refill from the
elapsed wall-clock time, capped at capacity, update `last_refill`, then debit
`n` tokens when at least `n` are available.  Returns whether the debit
succeeded together with the updated bucket. -/
def acquireStep (b : Bucket) (now : ℚ) (n : ℚ) : Bool × Bucket :=
  let elapsed := now - b.last_refill
  let refilled := min b.capacity (b.tokens + elapsed * b.refill_rate)
  if n ≤ refilled then
    (true, { b with tokens := refilled - n, last_refill := now })
  else
    (false, { b with tokens := refilled, last_refill := now })

/-- Run a sequence of refill-and-debit steps against a bucket.  Each list
entry `(elapsed, n)` is one execution of the critical section of
`TokenBucket.acquire(n)` occurring `elapsed` seconds of wall-clock time after
the previous refill; the result lists the bucket state after every step. -/
def runAcquires (b : Bucket) : List (ℚ × ℚ) → List Bucket
  | [] => []
  | (e, n) :: rest =>
    let b2 := (acquireStep b (b.last_refill + e) n).2
    b2 :: runAcquires b2 rest

/-- Token-count invariant of the bucket: never negative, never above
capacity. -/
def BucketInv (b : Bucket) : Prop :=
  0 ≤ b.tokens ∧ b.tokens ≤ b.capacity

/-- Cache key: the `(player_id, endpoint)` pair used by `Cache`
(storage.py). -/
abbrev CKey := String × String

/-- One cache entry: payload, creation time and TTL, as stored both in
`Cache._memory_cache` and in the `api_cache` SQLite table. -/
structure CacheEntry (V : Type) where
  data : V
  created_at : ℚ
  ttl_seconds : ℚ
deriving DecidableEq

/-- Pointwise update of a finite map modelled as a function. -/
def updateMap {α β : Type} [DecidableEq α] (m : α → Option β) (k : α)
    (v : Option β) : α → Option β :=
  fun k2 => if k2 = k then v else m k2

/-- State of `Cache` (storage.py): the in-memory tier `_memory_cache`, the
durable SQLite tier `api_cache` (modelled as a map; the JSON
serialise/deserialise round trip on the durable tier is the identity), and
the `session_only` flag. -/
structure Cache (V : Type) where
  memory : CKey → Option (CacheEntry V)
  disk : CKey → Option (CacheEntry V)
  session_only : Bool

/-- The part of `Cache.get_cached_response` that runs after a memory-tier
miss (storage.py lines 105-134): short-circuits in session-only mode,
otherwise consults the SQLite row, lazily deleting it when expired and
promoting it into the memory tier when live. -/
def getAfterMemoryMiss {V : Type} (c : Cache V) (k : CKey) (now : ℚ) :
    Option V × Cache V :=
  if c.session_only then (none, c)
  else
    match c.disk k with
    | none => (none, c)
    | some e =>
      if now - e.created_at > e.ttl_seconds then
        -- expired on the durable tier: delete_cached_response, miss
        (none, { c with memory := updateMap c.memory k none,
                        disk := updateMap c.disk k none })
      else
        (some e.data, { c with memory := updateMap c.memory k (some e) })

/-- `Cache.get_cached_response` (storage.py lines 84-134): memory tier first
(live iff `elapsed <= ttl_seconds`, deleting the memory entry on expiry),
then the durable tier unless `session_only`. -/
def getCachedResponse {V : Type} (c : Cache V) (k : CKey) (now : ℚ) :
    Option V × Cache V :=
  match c.memory k with
  | some e =>
    if now - e.created_at ≤ e.ttl_seconds then (some e.data, c)
    else
      getAfterMemoryMiss { c with memory := updateMap c.memory k none } k now
  | none => getAfterMemoryMiss c k now

/-- `Cache.cache_response` (storage.py lines 136-163): resolves the pythonic
TTL default, always writes the memory tier, and writes the durable tier
unless `session_only`. -/
def cacheResponse {V : Type} (c : Cache V) (k : CKey) (data : V)
    (ttl_seconds : Option ℚ) (now : ℚ) : Cache V :=
  let ttl := orDefaultRat ttl_seconds Config.CACHE_TTL_SECONDS
  let entry : CacheEntry V := { data := data, created_at := now, ttl_seconds := ttl }
  let c2 := { c with memory := updateMap c.memory k (some entry) }
  if c.session_only then c2
  else { c2 with disk := updateMap c2.disk k (some entry) }

/-- `Cache.delete_cached_response` (storage.py lines 165-180): removes the
memory entry, and the SQLite row unless `session_only`. -/
def deleteCachedResponse {V : Type} (c : Cache V) (k : CKey) : Cache V :=
  let c2 := { c with memory := updateMap c.memory k none }
  if c.session_only then c2
  else { c2 with disk := updateMap c2.disk k none }

/-- `Cache.clear_expired` (storage.py lines 270-296): sweeps expired entries
from the memory tier (condition `now - created_at > ttl_seconds`), and from
the SQLite tier (condition `created_at + ttl_seconds < now`) unless
`session_only`. -/
def clearExpired {V : Type} (c : Cache V) (now : ℚ) : Cache V :=
  let mem2 : CKey → Option (CacheEntry V) := fun k =>
    match c.memory k with
    | none => none
    | some e => if now - e.created_at > e.ttl_seconds then none else some e
  let c2 := { c with memory := mem2 }
  if c.session_only then c2
  else
    { c2 with disk := fun k =>
        match c.disk k with
        | none => none
        | some e => if e.created_at + e.ttl_seconds < now then none else some e }

/-- `APIClient._request_key` (api_client.py lines 46-52): joins
`"{k}={params[k]}"` over the keys of the parameter mapping in sorted order
(empty when the mapping is falsy), prefixed by method and endpoint.  The
parameter mapping is modelled as an association list with distinct keys. -/
def requestKey (method endpoint : String) (params : List (String × String)) :
    String :=
  let params_key :=
    if params.isEmpty then ""
    else
      String.intercalate "&"
        (((params.map Prod.fst).insertionSort (· ≤ ·)).map
          (fun k => k ++ "=" ++ ((params.lookup k).getD "")))
  method ++ ":" ++ endpoint ++ ":" ++ params_key

/-- Phase of one caller inside `APIClient._make_request` (api_client.py lines
54-75).  `start`: about to run the synchronous check of
`_inflight_requests`; `owner t`: created task `t`, registered it, awaiting
it; `waiting t`: found task `t` already registered and is awaiting it;
`done joined t`: returned (or re-raised) the result of task `t`, `joined`
recording whether this caller coalesced onto a pre-existing in-flight task. -/
inductive CallerPhase
  | start
  | owner (tid : Nat)
  | waiting (tid : Nat)
  | done (joined : Bool) (tid : Nat)
deriving DecidableEq

/-- Interleaving state for two concurrent `_make_request` calls with the same
request key.  `registry` is `_inflight_requests[request_key]`; `nextTid`
counts the network tasks created (`asyncio.create_task`); `completed t`
records whether task `t` has resolved. -/
structure DedupState where
  registry : Option Nat
  nextTid : Nat
  completed : Nat → Bool
  c1 : CallerPhase
  c2 : CallerPhase

/-- Atomic actions of the de-duplication protocol.  `check i` is the
synchronous block from `_inflight_requests.get` through the dictionary store
(lines 64-71: no await point inside, hence atomic under cooperative
scheduling); `complete t` is task `t` finishing its network work; `finish i`
is caller `i` returning from its await (for the owner this includes the
`finally` pop of the registry entry). -/
inductive DedupAction
  | check1
  | check2
  | complete (t : Nat)
  | finish1
  | finish2
deriving DecidableEq

/-- Initial state: empty registry, no tasks, both callers about to check. -/
def initDedup : DedupState :=
  { registry := none, nextTid := 0, completed := fun _ => false,
    c1 := CallerPhase.start, c2 := CallerPhase.start }

/-- One atomic step of the de-duplication protocol; actions whose
precondition does not hold are no-ops. -/
def dedupStep (s : DedupState) (a : DedupAction) : DedupState :=
  match a with
  | DedupAction.check1 =>
    match s.c1 with
    | CallerPhase.start =>
      match s.registry with
      | some t => { s with c1 := CallerPhase.waiting t }
      | none =>
        { s with c1 := CallerPhase.owner s.nextTid,
                 registry := some s.nextTid, nextTid := s.nextTid + 1 }
    | _ => s
  | DedupAction.check2 =>
    match s.c2 with
    | CallerPhase.start =>
      match s.registry with
      | some t => { s with c2 := CallerPhase.waiting t }
      | none =>
        { s with c2 := CallerPhase.owner s.nextTid,
                 registry := some s.nextTid, nextTid := s.nextTid + 1 }
    | _ => s
  | DedupAction.complete t =>
    if t < s.nextTid then
      { s with completed := fun u => if u = t then true else s.completed u }
    else s
  | DedupAction.finish1 =>
    match s.c1 with
    | CallerPhase.owner t =>
      if s.completed t then
        { s with c1 := CallerPhase.done false t, registry := none }
      else s
    | CallerPhase.waiting t =>
      if s.completed t then { s with c1 := CallerPhase.done true t } else s
    | _ => s
  | DedupAction.finish2 =>
    match s.c2 with
    | CallerPhase.owner t =>
      if s.completed t then
        { s with c2 := CallerPhase.done false t, registry := none }
      else s
    | CallerPhase.waiting t =>
      if s.completed t then { s with c2 := CallerPhase.done true t } else s
    | _ => s

/-- Run a schedule of atomic actions from the initial state. -/
def runDedup (sched : List DedupAction) : DedupState :=
  sched.foldl dedupStep initDedup

/-- Number of network tasks a caller phase accounts for: a caller that
registered a task (and is or was its owner) accounts for one. -/
def ownCount : CallerPhase → Nat
  | CallerPhase.owner _ => 1
  | CallerPhase.done false _ => 1
  | _ => 0

/-- Invariant of the de-duplication protocol, preserved by every action. -/
def DedupInv (s : DedupState) : Prop :=
  (∀ t, s.c1 = CallerPhase.owner t → s.registry = some t) ∧
  (∀ t, s.c2 = CallerPhase.owner t → s.registry = some t) ∧
  (∀ t, s.registry = some t →
    s.c1 = CallerPhase.owner t ∨ s.c2 = CallerPhase.owner t) ∧
  (∀ t, s.c1 = CallerPhase.waiting t ∨ s.c1 = CallerPhase.done true t →
    s.c2 = CallerPhase.owner t ∨ s.c2 = CallerPhase.done false t) ∧
  (∀ t, s.c2 = CallerPhase.waiting t ∨ s.c2 = CallerPhase.done true t →
    s.c1 = CallerPhase.owner t ∨ s.c1 = CallerPhase.done false t) ∧
  (s.nextTid = ownCount s.c1 + ownCount s.c2) ∧
  (∀ w t, s.c1 = CallerPhase.done w t → s.completed t = true) ∧
  (∀ w t, s.c2 = CallerPhase.done w t → s.completed t = true) ∧
  (∀ t u, s.c1 = CallerPhase.owner t → s.c2 = CallerPhase.owner u → False)

/-- `APIClient.fetch_multiple_players` result accumulation (api_client.py
lines 351-365): iterate the ids in order, adding `id ↦ payload` for each id
whose fetch succeeded and skipping ids whose fetch raised.  `outcome` gives
the terminal result of each id's fetch. -/
def gatherResults {E V : Type} (outcome : String → Except E V)
    (acc : String → Option V) : List String → (String → Option V)
  | [] => acc
  | id :: rest =>
    let acc2 : String → Option V :=
      match outcome id with
      | Except.ok v => fun q => if q = id then some v else acc q
      | Except.error _ => acc
    gatherResults outcome acc2 rest

/-- `APIClient.fetch_multiple_players`: the resulting mapping from player id
to payload. -/
def fetchMultiplePlayers {E V : Type} (outcome : String → Except E V)
    (ids : List String) : String → Option V :=
  gatherResults outcome (fun _ => none) ids

/-- Helper for the retry-loop theorems: an attempt outcome that the loop
treats as retryable-then-terminal through the `except aiohttp.ClientError`
handler: a transport error, or an HTTP status at least 400 other than 429
(for which `raise_for_status` raises a `ClientResponseError`, a subclass of
`ClientError`). -/
def FailsAsClientError (o : NetOutcome) : Prop :=
  o = NetOutcome.transportError ∨
    ∃ c, o = NetOutcome.status c ∧ 400 ≤ c ∧ c ≠ 429

theorem requestLoop_exhaust (r : Nat) (server : Nat → NetOutcome)
    (hs : ∀ a, FailsAsClientError (server a)) :
    ∀ fuel attempt calls, attempt ≤ r → r + 1 - attempt ≤ fuel →
      requestLoop r server fuel attempt calls =
        (ReqResult.exhaustedRetries, calls + (r + 1 - attempt)) := by
  intro fuel
  induction fuel with
  | zero => intro attempt calls hle hfuel; omega
  | succ fuel ih =>
    intro attempt calls hle hfuel
    have hstep :
        (if attempt < r then
            requestLoop r server fuel (attempt + 1) (calls + 1)
          else (ReqResult.exhaustedRetries, calls + 1)) =
          (ReqResult.exhaustedRetries, calls + (r + 1 - attempt)) := by
      by_cases hlt : attempt < r
      · rw [if_pos hlt, ih (attempt + 1) (calls + 1) (by omega) (by omega)]
        have : calls + 1 + (r + 1 - (attempt + 1)) = calls + (r + 1 - attempt) := by
          omega
        rw [this]
      · rw [if_neg hlt]
        have : r + 1 - attempt = 1 := by omega
        rw [this]
    rcases hs attempt with htr | ⟨c, hc, hc4, hc429⟩
    · simp only [requestLoop, if_pos hle, htr]
      exact hstep
    · simp only [requestLoop, if_pos hle, hc]
      rw [if_neg hc429]
      by_cases h5 : 500 ≤ c
      · rw [if_pos h5]; exact hstep
      · rw [if_neg h5, if_pos hc4]; exact hstep

/-- Claim C2: a request whose every network attempt fails with a
transport/connection error (`aiohttp.ClientError`) terminates after exactly
`maxRetries + 1` network attempts and surfaces the terminal
`RuntimeError("Failed after {retries + 1} attempts")` (the ExhaustedRetries
class), where `maxRetries` is the effective retry bound of
`_make_request_internal`. -/
theorem retry_exhaustion (retries : Option Nat) :
    makeRequestInternal retries (fun _ => NetOutcome.transportError) =
      (ReqResult.exhaustedRetries, effectiveRetries retries + 1) := by
  unfold makeRequestInternal
  have h := requestLoop_exhaust (effectiveRetries retries)
    (fun _ => NetOutcome.transportError) (fun _ => Or.inl rfl)
    (effectiveRetries retries + 2) 0 0 (by omega) (by omega)
  simpa using h

/-- Counterexample to claim C1 as stated: with the default-equivalent bound
`retries = 3`, a server that always answers HTTP 404 (a 4xx other than 429)
does not make the request fail immediately after one network attempt;
`raise_for_status` raises `aiohttp.ClientResponseError`, a subclass of
`aiohttp.ClientError`, so the `except aiohttp.ClientError` handler retries
it, and the request performs 4 network attempts before surfacing the
ExhaustedRetries-class `RuntimeError`. -/
theorem client_fault_retried_cex :
    makeRequestInternal (some 3) (fun _ => NetOutcome.status 404) =
      (ReqResult.exhaustedRetries, 4) ∧
    (makeRequestInternal (some 3) (fun _ => NetOutcome.status 404)).2 ≠ 1 := by
  constructor
  · decide
  · decide

/-- Claim C1 (amended): an HTTP 4xx response other than 429 is not surfaced
immediately; `resp.raise_for_status()` raises `ClientResponseError`, which
the `except aiohttp.ClientError` handler catches and retries with backoff
while attempts remain, so a request whose attempts all yield such a status
terminates only after `effectiveRetries + 1` network attempts, surfacing the
ExhaustedRetries-class `RuntimeError` (this loop body is shared verbatim by
`_make_full_url_request`). -/
theorem client_fault_retried (retries : Option Nat) (c : Nat)
    (h4 : 400 ≤ c) (h5 : c < 500) (h429 : c ≠ 429) :
    makeRequestInternal retries (fun _ => NetOutcome.status c) =
      (ReqResult.exhaustedRetries, effectiveRetries retries + 1) := by
  unfold makeRequestInternal
  have h := requestLoop_exhaust (effectiveRetries retries)
    (fun _ => NetOutcome.status c) (fun _ => Or.inr ⟨c, rfl, h4, h429⟩)
    (effectiveRetries retries + 2) 0 0 (by omega) (by omega)
  simpa using h

/-- Witness for `client_fault_retried`: status 404 with `retries = 2` gives
exactly 3 network attempts and the exhausted-retries error. -/
theorem client_fault_retried_witness :
    400 ≤ 404 ∧ 404 < 500 ∧ 404 ≠ 429 ∧
    makeRequestInternal (some 2) (fun _ => NetOutcome.status 404) =
      (ReqResult.exhaustedRetries, 3) :=
  ⟨by decide, by decide, by decide,
    client_fault_retried (some 2) 404 (by decide) (by decide) (by decide)⟩

/-- Claim C10: passing `retries = 0` to `_make_request_internal` or
`_make_full_url_request` does not give a zero retry bound: `retries =
retries or Config.HTTP_RETRIES` treats `0` as falsy, so the effective bound
is the configured default `Config.HTTP_RETRIES = 3`, and the behaviour is
identical to passing no retry bound at all, for every server behaviour. -/
theorem zero_retries_uses_default (server : Nat → NetOutcome) :
    effectiveRetries (some 0) = Config.HTTP_RETRIES ∧
    Config.HTTP_RETRIES ≠ 0 ∧
    makeRequestInternal (some 0) server = makeRequestInternal none server ∧
    makeFullUrlRequest (some 0) server = makeFullUrlRequest none server :=
  ⟨rfl, by decide, rfl, rfl⟩

theorem acquireStep_preserves (b : Bucket) (now n : ℚ)
    (h : BucketInv b) (hr : 0 ≤ b.refill_rate) (he : b.last_refill ≤ now)
    (hn : 0 ≤ n) :
    BucketInv (acquireStep b now n).2 ∧
      (acquireStep b now n).2.capacity = b.capacity ∧
      (acquireStep b now n).2.refill_rate = b.refill_rate := by
  obtain ⟨h0, h1⟩ := h
  have hcap : 0 ≤ b.capacity := le_trans h0 h1
  have hadd : 0 ≤ b.tokens + (now - b.last_refill) * b.refill_rate := by
    have hm : 0 ≤ (now - b.last_refill) * b.refill_rate :=
      mul_nonneg (sub_nonneg.mpr he) hr
    linarith
  have hmin0 : 0 ≤ min b.capacity (b.tokens + (now - b.last_refill) * b.refill_rate) :=
    le_min hcap hadd
  have hminc : min b.capacity (b.tokens + (now - b.last_refill) * b.refill_rate) ≤
      b.capacity := min_le_left _ _
  unfold acquireStep BucketInv
  dsimp only
  split_ifs with hge
  · refine ⟨⟨?_, ?_⟩, rfl, rfl⟩
    · simp only
      linarith
    · simp only
      linarith
  · refine ⟨⟨?_, ?_⟩, rfl, rfl⟩
    · simp only
      linarith
    · simp only
      linarith

/-- Claim C3: for every sequence of refill-and-debit steps of
`TokenBucket.acquire` (arbitrary nonnegative elapsed wall-clock times and
nonnegative token requests), the token count satisfies
`0 ≤ tokens ≤ capacity` after every step, starting from any bucket state
satisfying the invariant (in particular from the freshly constructed full
bucket). -/
theorem token_count_invariant (b : Bucket) (steps : List (ℚ × ℚ))
    (hb : BucketInv b) (hr : 0 ≤ b.refill_rate)
    (hsteps : ∀ p ∈ steps, 0 ≤ p.1 ∧ 0 ≤ p.2) :
    ∀ b2 ∈ runAcquires b steps, BucketInv b2 ∧ b2.capacity = b.capacity := by
  induction steps generalizing b with
  | nil => intro b2 hmem; simp [runAcquires] at hmem
  | cons p rest ih =>
    obtain ⟨e, n⟩ := p
    have hp := hsteps (e, n) (List.mem_cons_self _ _)
    have hstep := acquireStep_preserves b (b.last_refill + e) n hb hr
      (by linarith [hp.1]) hp.2
    intro b2 hmem
    rw [runAcquires] at hmem
    rcases List.mem_cons.mp hmem with hhead | htail
    · subst hhead
      exact ⟨hstep.1, hstep.2.1⟩
    · have hrate : 0 ≤ ((acquireStep b (b.last_refill + e) n).2).refill_rate := by
        rw [hstep.2.2]; exact hr
      have hrest := ih _ hstep.1 hrate
        (fun q hq => hsteps q (List.mem_cons_of_mem _ hq)) b2 htail
      exact ⟨hrest.1, hrest.2.trans hstep.2.1⟩

/-- Witness for `token_count_invariant`: a fresh bucket of capacity 80 and
refill rate 2, with two concrete acquisition steps. -/
theorem token_count_invariant_witness :
    BucketInv (mkBucket 80 2 0) ∧
    (∀ b2 ∈ runAcquires (mkBucket 80 2 0) [(0, 1), (1, 2)],
      BucketInv b2 ∧ b2.capacity = (mkBucket 80 2 0).capacity) :=
  ⟨⟨by norm_num [mkBucket], by norm_num [mkBucket]⟩,
    token_count_invariant (mkBucket 80 2 0) [(0, 1), (1, 2)]
      ⟨by norm_num [mkBucket], by norm_num [mkBucket]⟩
      (by norm_num [mkBucket])
      (by intro p hp; fin_cases hp <;> norm_num)⟩

/-- Claim C6: one refill-and-debit step of `TokenBucket.acquire(n)` credits
`elapsed × refill_rate` tokens capped at `capacity`, updates `last_refill`
to the current time, leaves `capacity` and `refill_rate` unchanged, and
debits `n` exactly when at least `n` tokens are available after the refill;
otherwise it performs no debit (the post-refill token count is left
untouched) and reports insufficiency for that step. -/
theorem acquire_step_effect (b : Bucket) (now n : ℚ) :
    ((acquireStep b now n).2.last_refill = now) ∧
    ((acquireStep b now n).2.capacity = b.capacity) ∧
    ((acquireStep b now n).2.refill_rate = b.refill_rate) ∧
    ((acquireStep b now n).1 = true ↔
      n ≤ min b.capacity (b.tokens + (now - b.last_refill) * b.refill_rate)) ∧
    (n ≤ min b.capacity (b.tokens + (now - b.last_refill) * b.refill_rate) →
      (acquireStep b now n).2.tokens =
        min b.capacity (b.tokens + (now - b.last_refill) * b.refill_rate) - n) ∧
    (¬ n ≤ min b.capacity (b.tokens + (now - b.last_refill) * b.refill_rate) →
      (acquireStep b now n).2.tokens =
        min b.capacity (b.tokens + (now - b.last_refill) * b.refill_rate) ∧
      (acquireStep b now n).1 = false) := by
  unfold acquireStep
  dsimp only
  split_ifs with hge
  · exact ⟨rfl, rfl, rfl, by simp [hge], fun _ => rfl, fun hc => absurd hge hc⟩
  · exact ⟨rfl, rfl, rfl, by simp [hge], fun hc => absurd hc hge,
      fun _ => ⟨rfl, rfl⟩⟩

/-- Witness for `acquire_step_effect`: a concrete step against a fresh
bucket. -/
theorem acquire_step_effect_witness :
    ((acquireStep (mkBucket 10 1 0) 2 1).2.last_refill = 2) ∧
    ((acquireStep (mkBucket 10 1 0) 2 1).2.capacity = (mkBucket 10 1 0).capacity) ∧
    ((acquireStep (mkBucket 10 1 0) 2 1).2.refill_rate = (mkBucket 10 1 0).refill_rate) ∧
    ((acquireStep (mkBucket 10 1 0) 2 1).1 = true ↔
      1 ≤ min (mkBucket 10 1 0).capacity ((mkBucket 10 1 0).tokens +
        (2 - (mkBucket 10 1 0).last_refill) * (mkBucket 10 1 0).refill_rate)) ∧
    (1 ≤ min (mkBucket 10 1 0).capacity ((mkBucket 10 1 0).tokens +
        (2 - (mkBucket 10 1 0).last_refill) * (mkBucket 10 1 0).refill_rate) →
      (acquireStep (mkBucket 10 1 0) 2 1).2.tokens =
        min (mkBucket 10 1 0).capacity ((mkBucket 10 1 0).tokens +
          (2 - (mkBucket 10 1 0).last_refill) * (mkBucket 10 1 0).refill_rate) - 1) ∧
    (¬ 1 ≤ min (mkBucket 10 1 0).capacity ((mkBucket 10 1 0).tokens +
        (2 - (mkBucket 10 1 0).last_refill) * (mkBucket 10 1 0).refill_rate) →
      (acquireStep (mkBucket 10 1 0) 2 1).2.tokens =
        min (mkBucket 10 1 0).capacity ((mkBucket 10 1 0).tokens +
          (2 - (mkBucket 10 1 0).last_refill) * (mkBucket 10 1 0).refill_rate) ∧
      (acquireStep (mkBucket 10 1 0) 2 1).1 = false) :=
  acquire_step_effect (mkBucket 10 1 0) 2 1

theorem cacheResponse_memory {V : Type} (c : Cache V) (k : CKey) (v : V)
    (tp : Option ℚ) (now : ℚ) :
    (cacheResponse c k v tp now).memory =
      updateMap c.memory k
        (some { data := v, created_at := now,
                ttl_seconds := orDefaultRat tp Config.CACHE_TTL_SECONDS }) := by
  unfold cacheResponse
  dsimp only
  split_ifs <;> rfl

theorem cacheResponse_session {V : Type} (c : Cache V) (k : CKey) (v : V)
    (tp : Option ℚ) (now : ℚ) :
    (cacheResponse c k v tp now).session_only = c.session_only := by
  unfold cacheResponse
  dsimp only
  split_ifs <;> rfl

theorem cacheResponse_disk_of_true {V : Type} (c : Cache V) (k : CKey) (v : V)
    (tp : Option ℚ) (now : ℚ) (hs : c.session_only = true) :
    (cacheResponse c k v tp now).disk = c.disk := by
  unfold cacheResponse
  dsimp only
  rw [if_pos hs]

theorem cacheResponse_disk_of_false {V : Type} (c : Cache V) (k : CKey) (v : V)
    (tp : Option ℚ) (now : ℚ) (hs : c.session_only = false) :
    (cacheResponse c k v tp now).disk =
      updateMap c.disk k
        (some { data := v, created_at := now,
                ttl_seconds := orDefaultRat tp Config.CACHE_TTL_SECONDS }) := by
  unfold cacheResponse
  dsimp only
  rw [if_neg (by rw [hs]; exact Bool.false_ne_true)]

theorem getCachedResponse_memHit {V : Type} (c : Cache V) (k : CKey)
    (now : ℚ) (e : CacheEntry V) (hm : c.memory k = some e)
    (hlive : now - e.created_at ≤ e.ttl_seconds) :
    getCachedResponse c k now = (some e.data, c) := by
  unfold getCachedResponse
  rw [hm]
  dsimp only
  rw [if_pos hlive]

theorem getCachedResponse_memExpired {V : Type} (c : Cache V) (k : CKey)
    (now : ℚ) (e : CacheEntry V) (hm : c.memory k = some e)
    (hexp : ¬ now - e.created_at ≤ e.ttl_seconds) :
    getCachedResponse c k now =
      getAfterMemoryMiss { c with memory := updateMap c.memory k none } k now := by
  unfold getCachedResponse
  rw [hm]
  dsimp only
  rw [if_neg hexp]

theorem getAfterMemoryMiss_sessionOnly {V : Type} (c : Cache V) (k : CKey)
    (now : ℚ) (hs : c.session_only = true) :
    getAfterMemoryMiss c k now = (none, c) := by
  unfold getAfterMemoryMiss
  rw [if_pos hs]

theorem getAfterMemoryMiss_diskExpired {V : Type} (c : Cache V) (k : CKey)
    (now : ℚ) (e : CacheEntry V) (hs : c.session_only = false)
    (hd : c.disk k = some e) (hexp : now - e.created_at > e.ttl_seconds) :
    getAfterMemoryMiss c k now =
      (none, { c with memory := updateMap c.memory k none,
                      disk := updateMap c.disk k none }) := by
  unfold getAfterMemoryMiss
  rw [if_neg (by rw [hs]; exact Bool.false_ne_true), hd]
  dsimp only
  rw [if_pos hexp]

/-- Claim C4: a payload stored through `Cache.cache_response` under key
`(subject, operation)` whose stored entry carries TTL `T` (the resolved
pythonic default of the `ttl_seconds` argument) is returned equal by
`Cache.get_cached_response` at every time `t < T` after storage, and is a
miss (`None`) at every time `t ≥ T + ε` for positive `ε`. -/
theorem cache_ttl (V : Type) (c : Cache V) (k : CKey) (v : V)
    (tp : Option ℚ) (now t : ℚ) (ht : 0 ≤ t) :
    (t < orDefaultRat tp Config.CACHE_TTL_SECONDS →
      (getCachedResponse (cacheResponse c k v tp now) k (now + t)).1 = some v) ∧
    (∀ ε : ℚ, 0 < ε → orDefaultRat tp Config.CACHE_TTL_SECONDS + ε ≤ t →
      (getCachedResponse (cacheResponse c k v tp now) k (now + t)).1 = none) := by
  have hmem : (cacheResponse c k v tp now).memory k =
      some { data := v, created_at := now,
             ttl_seconds := orDefaultRat tp Config.CACHE_TTL_SECONDS } := by
    rw [cacheResponse_memory]
    simp [updateMap]
  constructor
  · intro hlt
    rw [getCachedResponse_memHit _ _ _ _ hmem]
    dsimp only
    rw [add_sub_cancel_left]
    exact le_of_lt hlt
  · intro ε hε hεt
    have hgt : orDefaultRat tp Config.CACHE_TTL_SECONDS < t := by linarith
    rw [getCachedResponse_memExpired _ _ _ _ hmem
      (by rw [add_sub_cancel_left]; exact not_le.mpr hgt)]
    cases hs : c.session_only with
    | true =>
      rw [getAfterMemoryMiss_sessionOnly]
      rw [cacheResponse_session]
      exact hs
    | false =>
      rw [getAfterMemoryMiss_diskExpired _ _ _
        { data := v, created_at := now,
          ttl_seconds := orDefaultRat tp Config.CACHE_TTL_SECONDS }]
      · show ({ cacheResponse c k v tp now with
            memory := updateMap (cacheResponse c k v tp now).memory k none } :
            Cache V).session_only = false
        rw [cacheResponse_session]
        exact hs
      · show ({ cacheResponse c k v tp now with
            memory := updateMap (cacheResponse c k v tp now).memory k none } :
            Cache V).disk k = _
        dsimp only
        rw [cacheResponse_disk_of_false _ _ _ _ _ hs]
        simp [updateMap]
      · dsimp only
        rw [add_sub_cancel_left]
        exact hgt

/-- Witness for `cache_ttl`: an empty non-session-only cache, TTL argument
10, read back 3 seconds after storage (a hit) and at or beyond 11 seconds
(a miss). -/
theorem cache_ttl_witness :
    0 ≤ (3 : ℚ) ∧
    ((3 < orDefaultRat (some 10) Config.CACHE_TTL_SECONDS →
      (getCachedResponse
        (cacheResponse
          { memory := fun _ => none, disk := fun _ => none,
            session_only := false }
          ("p1", "player_stats") (7 : ℕ) (some 10) 0)
        ("p1", "player_stats") (0 + 3)).1 = some 7) ∧
    (∀ ε : ℚ, 0 < ε → orDefaultRat (some 10) Config.CACHE_TTL_SECONDS + ε ≤ 3 →
      (getCachedResponse
        (cacheResponse
          { memory := fun _ => none, disk := fun _ => none,
            session_only := false }
          ("p1", "player_stats") (7 : ℕ) (some 10) 0)
        ("p1", "player_stats") (0 + 3)).1 = none)) :=
  ⟨by norm_num,
    cache_ttl ℕ
      { memory := fun _ => none, disk := fun _ => none, session_only := false }
      ("p1", "player_stats") 7 (some 10) 0 3 (by norm_num)⟩

/-- Claim C7: with `session_only = true`, the four cache operations
`get_cached_response`, `cache_response`, `delete_cached_response` and
`clear_expired` never touch the durable SQLite tier: each leaves the disk
map unchanged, and its observable result and memory-tier effect are
independent of the disk contents. -/
theorem session_only_no_durable_tier {V : Type} (c : Cache V)
    (hs : c.session_only = true) (d : CKey → Option (CacheEntry V))
    (k : CKey) (v : V) (tp : Option ℚ) (now : ℚ) :
    ((getCachedResponse c k now).2.disk = c.disk) ∧
    ((getCachedResponse { c with disk := d } k now).1 =
      (getCachedResponse c k now).1) ∧
    ((getCachedResponse { c with disk := d } k now).2.memory =
      (getCachedResponse c k now).2.memory) ∧
    ((cacheResponse c k v tp now).disk = c.disk) ∧
    ((cacheResponse { c with disk := d } k v tp now).memory =
      (cacheResponse c k v tp now).memory) ∧
    ((deleteCachedResponse c k).disk = c.disk) ∧
    ((deleteCachedResponse { c with disk := d } k).memory =
      (deleteCachedResponse c k).memory) ∧
    ((clearExpired c now).disk = c.disk) ∧
    ((clearExpired { c with disk := d } now).memory =
      (clearExpired c now).memory) := by
  have hsd : ({ c with disk := d } : Cache V).session_only = true := hs
  refine ⟨?_, ?_, ?_, ?_, ?_, ?_, ?_, ?_, ?_⟩
  · unfold getCachedResponse
    cases hm : c.memory k <;> dsimp only
    · rw [getAfterMemoryMiss_sessionOnly _ _ _ hs]
    · split_ifs with hlive
      · rfl
      · rw [getAfterMemoryMiss_sessionOnly
          { memory := updateMap c.memory k none, disk := c.disk,
            session_only := c.session_only } k now hs]
  · unfold getCachedResponse
    dsimp only
    cases hm : c.memory k <;> dsimp only
    · rw [getAfterMemoryMiss_sessionOnly _ _ _ hs,
        getAfterMemoryMiss_sessionOnly _ _ _ hsd]
    · split_ifs with hlive
      · rfl
      · rw [getAfterMemoryMiss_sessionOnly
          { memory := updateMap c.memory k none, disk := c.disk,
            session_only := c.session_only } k now hs,
          getAfterMemoryMiss_sessionOnly
          { memory := updateMap c.memory k none, disk := d,
            session_only := c.session_only } k now hs]
  · unfold getCachedResponse
    dsimp only
    cases hm : c.memory k <;> dsimp only
    · rw [getAfterMemoryMiss_sessionOnly _ _ _ hs,
        getAfterMemoryMiss_sessionOnly _ _ _ hsd]
    · split_ifs with hlive
      · rfl
      · rw [getAfterMemoryMiss_sessionOnly
          { memory := updateMap c.memory k none, disk := c.disk,
            session_only := c.session_only } k now hs,
          getAfterMemoryMiss_sessionOnly
          { memory := updateMap c.memory k none, disk := d,
            session_only := c.session_only } k now hs]
  · exact cacheResponse_disk_of_true _ _ _ _ _ hs
  · rw [cacheResponse_memory, cacheResponse_memory]
  · unfold deleteCachedResponse
    dsimp only
    rw [if_pos hs]
  · unfold deleteCachedResponse
    dsimp only
    rw [if_pos hs, if_pos hsd]
  · unfold clearExpired
    dsimp only
    rw [if_pos hs]
  · unfold clearExpired
    dsimp only
    rw [if_pos hs, if_pos hsd]

/-- Witness for `session_only_no_durable_tier`: a concrete session-only
cache holding one live memory entry, checked against an adversarial disk
map. -/
theorem session_only_no_durable_tier_witness :
    ({ memory := fun _ => none, disk := fun _ => none,
       session_only := true } : Cache ℕ).session_only = true ∧
    ((getCachedResponse
        ({ memory := fun _ => none, disk := fun _ => none,
           session_only := true } : Cache ℕ) ("p", "op") 5).2.disk =
      ({ memory := fun _ => none, disk := fun _ => none,
         session_only := true } : Cache ℕ).disk) := by
  constructor
  · rfl
  · exact (session_only_no_durable_tier
      { memory := fun _ => none, disk := fun _ => none, session_only := true }
      rfl (fun _ => some { data := 9, created_at := 0, ttl_seconds := 100 })
      ("p", "op") 3 none 5).1

theorem lookup_eq_of_perm_of_nodup_keys (p q : List (String × String))
    (hp : p.Perm q) :
    (p.map Prod.fst).Nodup → ∀ a : String, p.lookup a = q.lookup a := by
  induction hp with
  | nil => intro _ a; rfl
  | cons x hsub ih =>
    intro hnd a
    rw [List.map_cons, List.nodup_cons] at hnd
    have hnd1 := hnd.2
    cases hax : a == x.1 with
    | true => simp only [List.lookup, hax]
    | false =>
      simp only [List.lookup, hax]
      exact ih hnd1 a
  | swap x y l =>
    intro hnd a
    rw [List.map_cons, List.map_cons, List.nodup_cons] at hnd
    have hxy : y.1 ≠ x.1 := by
      intro h
      exact hnd.1 (by rw [h]; exact List.mem_cons_self _ _)
    by_cases hay : a = y.1
    · have h1 : (a == y.1) = true := beq_iff_eq.mpr hay
      have hax : a ≠ x.1 := by rw [hay]; exact hxy
      have h2 : (a == x.1) = false := beq_eq_false_iff_ne.mpr hax
      simp only [List.lookup, h1, h2]
    · have h1 : (a == y.1) = false := beq_eq_false_iff_ne.mpr hay
      by_cases hax : a = x.1
      · have h2 : (a == x.1) = true := beq_iff_eq.mpr hax
        simp only [List.lookup, h1, h2]
      · have h2 : (a == x.1) = false := beq_eq_false_iff_ne.mpr hax
        simp only [List.lookup, h1, h2]
  | trans hpq hqr ih1 ih2 =>
    intro hnd a
    have hnd2 := (hpq.map Prod.fst).nodup hnd
    rw [ih1 hnd a, ih2 hnd2 a]

/-- Claim C9: `_request_key` is invariant under reordering of the query
parameters: for parameter mappings that are equal as sets of (name, value)
pairs (modelled as association lists with distinct names that are
permutations of each other), the computed key is identical, so supply order
never affects de-duplication or cache identity. -/
theorem request_key_order_independent (m e : String)
    (p q : List (String × String)) (hp : p.Perm q)
    (hnd : (p.map Prod.fst).Nodup) :
    requestKey m e p = requestKey m e q := by
  unfold requestKey
  have hkeys : (p.map Prod.fst).Perm (q.map Prod.fst) := hp.map Prod.fst
  have hsorted : (p.map Prod.fst).insertionSort (· ≤ ·) =
      (q.map Prod.fst).insertionSort (· ≤ ·) := by
    refine List.eq_of_perm_of_sorted
      (((List.perm_insertionSort _ _).trans hkeys).trans
        (List.perm_insertionSort _ _).symm)
      (List.sorted_insertionSort _ _) (List.sorted_insertionSort _ _)
  have hempty : p.isEmpty = q.isEmpty := by
    have hl := hp.length_eq
    cases p <;> cases q <;> simp_all
  have hlook : ∀ a : String, p.lookup a = q.lookup a :=
    lookup_eq_of_perm_of_nodup_keys p q hp hnd
  have hfun : (fun k : String => k ++ "=" ++ (p.lookup k).getD "") =
      (fun k : String => k ++ "=" ++ (q.lookup k).getD "") :=
    funext fun a => by rw [hlook a]
  rw [hsorted, hempty, hfun]

/-- Witness for `request_key_order_independent`: the same two parameters
supplied in both orders. -/
theorem request_key_order_independent_witness :
    ([(("b" : String), ("2" : String)), (("a" : String), ("1" : String))].Perm
      [(("a" : String), ("1" : String)), (("b" : String), ("2" : String))]) ∧
    (([(("b" : String), ("2" : String)),
        (("a" : String), ("1" : String))].map Prod.fst).Nodup) ∧
    requestKey "GET" "/user" [("b", "2"), ("a", "1")] =
      requestKey "GET" "/user" [("a", "1"), ("b", "2")] :=
  ⟨List.Perm.swap _ _ _, by decide,
    request_key_order_independent "GET" "/user" _ _
      (List.Perm.swap _ _ _) (by decide)⟩

theorem gatherResults_not_mem {E V : Type} (outcome : String → Except E V)
    (ids : List String) :
    ∀ (acc : String → Option V) (p : String), p ∉ ids →
      gatherResults outcome acc ids p = acc p := by
  induction ids with
  | nil => intro acc p _; rfl
  | cons id rest ih =>
    intro acc p hp
    have hpid : p ≠ id := fun h => hp (h ▸ List.mem_cons_self _ _)
    have hprest : p ∉ rest := fun h => hp (List.mem_cons_of_mem _ h)
    rw [gatherResults]
    cases ho : outcome id with
    | ok v =>
      rw [ih _ p hprest]
      dsimp only
      rw [if_neg hpid]
    | error er => exact ih _ p hprest

theorem gatherResults_ok {E V : Type} (outcome : String → Except E V)
    (ids : List String) :
    ∀ (acc : String → Option V) (p : String) (v : V),
      outcome p = Except.ok v → p ∈ ids →
      gatherResults outcome acc ids p = some v := by
  induction ids with
  | nil => intro acc p v _ hm; exact absurd hm (List.not_mem_nil p)
  | cons id rest ih =>
    intro acc p v ho hm
    rw [gatherResults]
    by_cases hrest : p ∈ rest
    · exact ih _ p v ho hrest
    · have hpid : p = id := by
        rcases List.mem_cons.mp hm with h | h
        · exact h
        · exact absurd h hrest
      subst hpid
      rw [ho]
      rw [gatherResults_not_mem outcome rest _ p hrest]
      dsimp only
      rw [if_pos rfl]

theorem gatherResults_error {E V : Type} (outcome : String → Except E V)
    (ids : List String) :
    ∀ (acc : String → Option V) (p : String) (er : E),
      outcome p = Except.error er →
      gatherResults outcome acc ids p = acc p := by
  induction ids with
  | nil => intro acc p er _; rfl
  | cons id rest ih =>
    intro acc p er ho
    rw [gatherResults]
    cases hoid : outcome id with
    | ok w =>
      rw [ih _ p er ho]
      dsimp only
      split_ifs with hpid
      · subst hpid
        rw [ho] at hoid
        cases hoid
      · rfl
    | error er2 => exact ih _ p er ho

/-- Claim C8: `fetch_multiple_players` returns a mapping containing exactly
the ids whose individual fetch succeeded, each mapped to its payload; an id
whose fetch terminally fails is absent, and its failure does not affect any
other id's entry (the result at `p` depends only on `p`'s membership and
`p`'s own outcome). -/
theorem fetch_multiple_success_map {E V : Type} (outcome : String → Except E V)
    (ids : List String) (p : String) (v : V) :
    fetchMultiplePlayers outcome ids p = some v ↔
      (p ∈ ids ∧ outcome p = Except.ok v) := by
  constructor
  · intro h
    cases ho : outcome p with
    | error er =>
      rw [fetchMultiplePlayers,
        gatherResults_error outcome ids _ p er ho] at h
      cases h
    | ok w =>
      by_cases hm : p ∈ ids
      · have := gatherResults_ok outcome ids (fun _ => none) p w ho hm
        rw [fetchMultiplePlayers] at h
        rw [this] at h
        injection h with hw
        subst hw
        exact ⟨hm, rfl⟩
      · rw [fetchMultiplePlayers,
          gatherResults_not_mem outcome ids _ p hm] at h
        cases h
  · rintro ⟨hm, ho⟩
    exact gatherResults_ok outcome ids _ p v ho hm

theorem initDedup_inv : DedupInv initDedup := by
  refine ⟨?_, ?_, ?_, ?_, ?_, ?_, ?_, ?_, ?_⟩
  · intro t ht
    exact nomatch ht
  · intro t ht
    exact nomatch ht
  · intro t ht
    exact nomatch ht
  · intro t ht
    rcases ht with ht | ht <;> exact nomatch ht
  · intro t ht
    rcases ht with ht | ht <;> exact nomatch ht
  · rfl
  · intro w t ht
    exact nomatch ht
  · intro w t ht
    exact nomatch ht
  · intro t u ht _
    exact nomatch ht

theorem dedupStep_inv (s : DedupState) (a : DedupAction) (h : DedupInv s) :
    DedupInv (dedupStep s a) := by
  obtain ⟨h1, h2, h3, h4, h5, h6, h7, h8, h9⟩ := h
  cases a with
  | check1 =>
    cases hc1 : s.c1 with
    | start =>
      cases hreg : s.registry with
      | some t0 =>
        simp only [dedupStep, hc1, hreg]
        refine ⟨?_, ?_, ?_, ?_, ?_, ?_, ?_, ?_, ?_⟩
        · intro t ht
          exact nomatch ht
        · intro t ht
          have hh := h2 t ht
          rw [hreg] at hh
          exact hh
        · intro t ht
          injection ht with ht'
          subst ht'
          rcases h3 t0 hreg with hA | hB
          · rw [hc1] at hA
            exact nomatch hA
          · exact Or.inr hB
        · intro t ht
          rcases ht with ht | ht
          · injection ht with ht'
            subst ht'
            rcases h3 t0 hreg with hA | hB
            · rw [hc1] at hA
              exact nomatch hA
            · exact Or.inl hB
          · exact nomatch ht
        · intro t ht
          rcases h5 t ht with hA | hB
          · rw [hc1] at hA
            exact nomatch hA
          · rw [hc1] at hB
            exact nomatch hB
        · rw [hc1] at h6
          simpa [ownCount] using h6
        · intro w t ht
          exact nomatch ht
        · exact h8
        · intro t u ht _
          exact nomatch ht
      | none =>
        simp only [dedupStep, hc1, hreg]
        refine ⟨?_, ?_, ?_, ?_, ?_, ?_, ?_, ?_, ?_⟩
        · intro t ht
          injection ht with ht'
          rw [ht']
        · intro t ht
          have hcon := h2 t ht
          rw [hreg] at hcon
          exact nomatch hcon
        · intro t ht
          injection ht with ht'
          rw [ht']
          exact Or.inl rfl
        · intro t ht
          rcases ht with ht | ht <;> exact nomatch ht
        · intro t ht
          rcases h5 t ht with hA | hB
          · rw [hc1] at hA
            exact nomatch hA
          · rw [hc1] at hB
            exact nomatch hB
        · rw [hc1] at h6
          simp only [ownCount] at h6 ⊢
          omega
        · intro w t ht
          exact nomatch ht
        · exact h8
        · intro t u _ hu
          have hcon := h2 u hu
          rw [hreg] at hcon
          exact nomatch hcon
    | owner t0 =>
      simp only [dedupStep, hc1]
      exact ⟨h1, h2, h3, h4, h5, h6, h7, h8, h9⟩
    | waiting t0 =>
      simp only [dedupStep, hc1]
      exact ⟨h1, h2, h3, h4, h5, h6, h7, h8, h9⟩
    | done w0 t0 =>
      simp only [dedupStep, hc1]
      exact ⟨h1, h2, h3, h4, h5, h6, h7, h8, h9⟩
  | check2 =>
    cases hc2 : s.c2 with
    | start =>
      cases hreg : s.registry with
      | some t0 =>
        simp only [dedupStep, hc2, hreg]
        refine ⟨?_, ?_, ?_, ?_, ?_, ?_, ?_, ?_, ?_⟩
        · intro t ht
          have hh := h1 t ht
          rw [hreg] at hh
          exact hh
        · intro t ht
          exact nomatch ht
        · intro t ht
          injection ht with ht'
          subst ht'
          rcases h3 t0 hreg with hA | hB
          · exact Or.inl hA
          · rw [hc2] at hB
            exact nomatch hB
        · intro t ht
          rcases h4 t ht with hA | hB
          · rw [hc2] at hA
            exact nomatch hA
          · rw [hc2] at hB
            exact nomatch hB
        · intro t ht
          rcases ht with ht | ht
          · injection ht with ht'
            subst ht'
            rcases h3 t0 hreg with hA | hB
            · exact Or.inl hA
            · rw [hc2] at hB
              exact nomatch hB
          · exact nomatch ht
        · rw [hc2] at h6
          simpa [ownCount] using h6
        · exact h7
        · intro w t ht
          exact nomatch ht
        · intro t u _ hu
          exact nomatch hu
      | none =>
        simp only [dedupStep, hc2, hreg]
        refine ⟨?_, ?_, ?_, ?_, ?_, ?_, ?_, ?_, ?_⟩
        · intro t ht
          have hcon := h1 t ht
          rw [hreg] at hcon
          exact nomatch hcon
        · intro t ht
          injection ht with ht'
          rw [ht']
        · intro t ht
          injection ht with ht'
          rw [ht']
          exact Or.inr rfl
        · intro t ht
          rcases h4 t ht with hA | hB
          · rw [hc2] at hA
            exact nomatch hA
          · rw [hc2] at hB
            exact nomatch hB
        · intro t ht
          rcases ht with ht | ht <;> exact nomatch ht
        · rw [hc2] at h6
          simp only [ownCount] at h6 ⊢
          omega
        · exact h7
        · intro w t ht
          exact nomatch ht
        · intro t u ht _
          have hcon := h1 t ht
          rw [hreg] at hcon
          exact nomatch hcon
    | owner t0 =>
      simp only [dedupStep, hc2]
      exact ⟨h1, h2, h3, h4, h5, h6, h7, h8, h9⟩
    | waiting t0 =>
      simp only [dedupStep, hc2]
      exact ⟨h1, h2, h3, h4, h5, h6, h7, h8, h9⟩
    | done w0 t0 =>
      simp only [dedupStep, hc2]
      exact ⟨h1, h2, h3, h4, h5, h6, h7, h8, h9⟩
  | complete t =>
    simp only [dedupStep]
    split_ifs with hlt
    · refine ⟨h1, h2, h3, h4, h5, h6, ?_, ?_, h9⟩
      · intro w t' ht'
        show (if t' = t then true else s.completed t') = true
        split_ifs with he
        · rfl
        · exact h7 w t' ht'
      · intro w t' ht'
        show (if t' = t then true else s.completed t') = true
        split_ifs with he
        · rfl
        · exact h8 w t' ht'
    · exact ⟨h1, h2, h3, h4, h5, h6, h7, h8, h9⟩
  | finish1 =>
    cases hc1 : s.c1 with
    | start =>
      simp only [dedupStep, hc1]
      exact ⟨h1, h2, h3, h4, h5, h6, h7, h8, h9⟩
    | owner t0 =>
      simp only [dedupStep, hc1]
      split_ifs with hcomp
      · refine ⟨?_, ?_, ?_, ?_, ?_, ?_, ?_, ?_, ?_⟩
        · intro t ht
          exact nomatch ht
        · intro t ht
          exact (h9 t0 t hc1 ht).elim
        · intro t ht
          exact nomatch ht
        · intro t ht
          rcases ht with ht | ht
          · exact nomatch ht
          · injection ht with hb _
            exact nomatch hb
        · intro t ht
          rcases h5 t ht with hA | hB
          · rw [hc1] at hA
            injection hA with ht'
            subst ht'
            exact Or.inr rfl
          · rw [hc1] at hB
            exact nomatch hB
        · rw [hc1] at h6
          simpa [ownCount] using h6
        · intro w t ht
          injection ht with _ ht'
          subst ht'
          exact hcomp
        · exact h8
        · intro t u ht _
          exact nomatch ht
      · exact ⟨h1, h2, h3, h4, h5, h6, h7, h8, h9⟩
    | waiting t0 =>
      simp only [dedupStep, hc1]
      split_ifs with hcomp
      · refine ⟨?_, ?_, ?_, ?_, ?_, ?_, ?_, ?_, ?_⟩
        · intro t ht
          exact nomatch ht
        · exact h2
        · intro t ht
          rcases h3 t ht with hA | hB
          · rw [hc1] at hA
            exact nomatch hA
          · exact Or.inr hB
        · intro t ht
          rcases ht with ht | ht
          · exact nomatch ht
          · injection ht with _ ht'
            subst ht'
            exact h4 t0 (Or.inl hc1)
        · intro t ht
          rcases h5 t ht with hA | hB
          · rw [hc1] at hA
            exact nomatch hA
          · rw [hc1] at hB
            exact nomatch hB
        · rw [hc1] at h6
          simpa [ownCount] using h6
        · intro w t ht
          injection ht with _ ht'
          subst ht'
          exact hcomp
        · exact h8
        · intro t u ht _
          exact nomatch ht
      · exact ⟨h1, h2, h3, h4, h5, h6, h7, h8, h9⟩
    | done w0 t0 =>
      simp only [dedupStep, hc1]
      exact ⟨h1, h2, h3, h4, h5, h6, h7, h8, h9⟩
  | finish2 =>
    cases hc2 : s.c2 with
    | start =>
      simp only [dedupStep, hc2]
      exact ⟨h1, h2, h3, h4, h5, h6, h7, h8, h9⟩
    | owner t0 =>
      simp only [dedupStep, hc2]
      split_ifs with hcomp
      · refine ⟨?_, ?_, ?_, ?_, ?_, ?_, ?_, ?_, ?_⟩
        · intro t ht
          exact (h9 t t0 ht hc2).elim
        · intro t ht
          exact nomatch ht
        · intro t ht
          exact nomatch ht
        · intro t ht
          rcases h4 t ht with hA | hB
          · rw [hc2] at hA
            injection hA with ht'
            subst ht'
            exact Or.inr rfl
          · rw [hc2] at hB
            exact nomatch hB
        · intro t ht
          rcases ht with ht | ht
          · exact nomatch ht
          · injection ht with hb _
            exact nomatch hb
        · rw [hc2] at h6
          simpa [ownCount] using h6
        · exact h7
        · intro w t ht
          injection ht with _ ht'
          subst ht'
          exact hcomp
        · intro t u _ hu
          exact nomatch hu
      · exact ⟨h1, h2, h3, h4, h5, h6, h7, h8, h9⟩
    | waiting t0 =>
      simp only [dedupStep, hc2]
      split_ifs with hcomp
      · refine ⟨?_, ?_, ?_, ?_, ?_, ?_, ?_, ?_, ?_⟩
        · exact h1
        · intro t ht
          exact nomatch ht
        · intro t ht
          rcases h3 t ht with hA | hB
          · exact Or.inl hA
          · rw [hc2] at hB
            exact nomatch hB
        · intro t ht
          rcases h4 t ht with hA | hB
          · rw [hc2] at hA
            exact nomatch hA
          · rw [hc2] at hB
            exact nomatch hB
        · intro t ht
          rcases ht with ht | ht
          · exact nomatch ht
          · injection ht with _ ht'
            subst ht'
            exact h5 t0 (Or.inl hc2)
        · rw [hc2] at h6
          simpa [ownCount] using h6
        · exact h7
        · intro w t ht
          injection ht with _ ht'
          subst ht'
          exact hcomp
        · intro t u _ hu
          exact nomatch hu
      · exact ⟨h1, h2, h3, h4, h5, h6, h7, h8, h9⟩
    | done w0 t0 =>
      simp only [dedupStep, hc2]
      exact ⟨h1, h2, h3, h4, h5, h6, h7, h8, h9⟩

theorem runDedup_inv (sched : List DedupAction) : DedupInv (runDedup sched) := by
  have hgen : ∀ (l : List DedupAction) (s : DedupState), DedupInv s →
      DedupInv (List.foldl dedupStep s l) := by
    intro l
    induction l with
    | nil => intro s hs; exact hs
    | cons a rest ih =>
      intro s hs
      exact ih (dedupStep s a) (dedupStep_inv s a hs)
  exact hgen sched initDedup initDedup_inv

/-- Claim C5: in any interleaving of two `_make_request` callers with the
same request key, if both complete and (at least) one of them coalesced onto
an already-registered in-flight task — which is exactly what happens to the
second caller whenever its synchronous registry check runs while the first
caller's request is still in flight — then exactly one network task was
created, both callers finished on the same task, that task did resolve, and
both callers receive its one resolved outcome (`res t`, the shared payload
or the shared failure). -/
theorem dedup_single_network_call {R : Type} (res : Nat → R)
    (sched : List DedupAction) (w1 w2 : Bool) (t1 t2 : Nat)
    (hd1 : (runDedup sched).c1 = CallerPhase.done w1 t1)
    (hd2 : (runDedup sched).c2 = CallerPhase.done w2 t2)
    (hw : w1 = true ∨ w2 = true) :
    (runDedup sched).nextTid = 1 ∧ t1 = t2 ∧ res t1 = res t2 ∧
      (runDedup sched).completed t1 = true := by
  obtain ⟨i1, i2, i3, i4, i5, i6, i7, i8, i9⟩ := runDedup_inv sched
  rcases hw with hw | hw
  · subst hw
    rcases i4 t1 (Or.inr hd1) with hA | hB
    · rw [hd2] at hA
      exact nomatch hA
    · rw [hd2] at hB
      injection hB with hw2 ht2
      subst hw2
      subst ht2
      refine ⟨?_, rfl, rfl, i7 true t2 hd1⟩
      rw [hd1, hd2] at i6
      simpa [ownCount] using i6
  · subst hw
    rcases i5 t2 (Or.inr hd2) with hA | hB
    · rw [hd1] at hA
      exact nomatch hA
    · rw [hd1] at hB
      injection hB with hw1 ht1
      subst hw1
      subst ht1
      refine ⟨?_, rfl, rfl, i7 false t1 hd1⟩
      rw [hd1, hd2] at i6
      simpa [ownCount] using i6

/-- Witness for `dedup_single_network_call`: caller 1 registers, caller 2
coalesces while the task is in flight, the task resolves, both finish. -/
theorem dedup_single_network_call_witness :
    (runDedup [DedupAction.check1, DedupAction.check2, DedupAction.complete 0,
      DedupAction.finish1, DedupAction.finish2]).c1 =
        CallerPhase.done false 0 ∧
    (runDedup [DedupAction.check1, DedupAction.check2, DedupAction.complete 0,
      DedupAction.finish1, DedupAction.finish2]).c2 =
        CallerPhase.done true 0 ∧
    ((false = true ∨ true = true) ∧
      ((runDedup [DedupAction.check1, DedupAction.check2,
          DedupAction.complete 0, DedupAction.finish1,
          DedupAction.finish2]).nextTid = 1 ∧
        (0 : Nat) = 0 ∧ (fun t : Nat => t) 0 = (fun t : Nat => t) 0 ∧
        (runDedup [DedupAction.check1, DedupAction.check2,
          DedupAction.complete 0, DedupAction.finish1,
          DedupAction.finish2]).completed 0 = true)) :=
  ⟨rfl, rfl, Or.inr rfl,
    dedup_single_network_call (fun t : Nat => t)
      [DedupAction.check1, DedupAction.check2, DedupAction.complete 0,
        DedupAction.finish1, DedupAction.finish2]
      false true 0 0 rfl rfl (Or.inr rfl)⟩

/-- Witness for `fetch_multiple_success_map`: ids A, B, C where B's fetch fails
terminally; A is present with its payload. -/
theorem fetch_multiple_success_map_witness :
    ("A" ∈ ["A", "B", "C"] ∧
      (fun s : String => if s = "B" then (Except.error 0 : Except ℕ ℕ)
        else Except.ok 1) "A" = Except.ok 1) ∧
    fetchMultiplePlayers
      (fun s : String => if s = "B" then (Except.error 0 : Except ℕ ℕ)
        else Except.ok 1) ["A", "B", "C"] "A" = some 1 := by
  have hmem : "A" ∈ ["A", "B", "C"] := List.mem_cons_self _ _
  have hok : (fun s : String => if s = "B" then (Except.error 0 : Except ℕ ℕ)
      else Except.ok 1) "A" = Except.ok 1 := by
    have hne : ("A" : String) ≠ "B" := by decide
    simp [hne]
  exact ⟨⟨hmem, hok⟩,
    (fetch_multiple_success_map
      (fun s : String => if s = "B" then (Except.error 0 : Except ℕ ℕ)
        else Except.ok 1) ["A", "B", "C"] "A" 1).mpr ⟨hmem, hok⟩⟩

end ThcEdge
